import Mathlib

/-!
Verification of `sample_tables/megatable_gen.py`.

The script builds a fixture document `{"inputs": inputs}` where `inputs`
is an insertion-ordered mapping from spreadsheet cell identifiers to
content strings: column A holds the row number as a literal string, and
every other column holds the formula `"= <left neighbour id> * 1.25"`.

The embedding below models the Python dict as an insertion-ordered
association list (`dictInsert` is Python's `d[k] = v`), and the two
nested `for` loops as a fold over the list of loop iterations.
-/

/-- Zero-pad a natural number to a minimum width of two digits, mirroring
Python's format string `f"{row:02d}"` applied to a non-negative integer:
a one-digit decimal rendering gets a leading `'0'`, anything longer is
kept unchanged. -/
def pad2 (n : Nat) : String :=
  let s := toString n
  if s.length < 2 then "0" ++ s else s

/-- `get_cell_id(col, row)` from the source: `f"{col}{row:02d}"`. -/
def get_cell_id (col : Char) (row : Nat) : String :=
  col.toString ++ pad2 row

/-- Python-dict assignment `d[k] = v` on an insertion-ordered association
list: when `k` is already present its value is overwritten in place,
otherwise the new pair is appended at the end. -/
def dictInsert (d : List (String × String)) (k v : String) :
    List (String × String) :=
  if k ∈ d.map Prod.fst then
    d.map fun p => if p.1 = k then (k, v) else p
  else d ++ [(k, v)]

/-- One iteration of the inner loop body of `gen_megatable`: the
(cell id, content) pair stored for column code `colCode` and row `row`.
Column code `65` is `'A'` and stores the literal `str(row)`; every other
column stores the formula referencing `chr(colCode - 1)` in the same row. -/
def cellEntry (colCode row : Nat) : String × String :=
  let col := Char.ofNat colCode
  let cell_id := get_cell_id col row
  if col = 'A' then
    (cell_id, toString row)
  else
    let prev_col := Char.ofNat (colCode - 1)
    let prev_cell_id := get_cell_id prev_col row
    (cell_id, "= " ++ prev_cell_id ++ " * 1.25")

/-- The sequence of inner-loop iterations of `gen_megatable`:
`for col_code in range(ord('A'), ord('Z') + 1)` outermost and
`for row in range(1, 51)` innermost. -/
def megatable_pairs : List (String × String) :=
  (List.range' 65 26).flatMap fun colCode =>
    (List.range' 1 50).map fun row => cellEntry colCode row

/-- The `inputs` dict built by `gen_megatable`: starting from the empty
dict, perform the assignment of every loop iteration in order. -/
def gen_megatable_inputs : List (String × String) :=
  megatable_pairs.foldl (fun d p => dictInsert d p.1 p.2) []

/-- `gen_megatable()`: the returned document `{"inputs": inputs}`,
an object with the single key `"inputs"`. -/
def gen_megatable : List (String × List (String × String)) :=
  [("inputs", gen_megatable_inputs)]

/-- The key order described by the spec, written from the spec's words:
iterate columns `'A'..'Z'` in order (letter `i` of the alphabet,
code `65 + i`), and for each column, rows `1..50` in order, listing each
cell identifier. -/
def spec_key_order : List String :=
  (List.range 26).flatMap fun i =>
    (List.range' 1 50).map fun r => get_cell_id (Char.ofNat (65 + i)) r

/-- The column a formula cell refers to: the column immediately before it
(`chr(col_code - 1)` in the source). -/
def refTarget (c : Char) : Char :=
  Char.ofNat (c.toNat - 1)

/-! ### Basic facts about characters and identifiers -/

theorem char_le_iff_toNat {a b : Char} : a ≤ b ↔ a.toNat ≤ b.toNat :=
  Iff.rfl

set_option maxRecDepth 4000 in
theorem toNat_charOfNat_small : ∀ cc : Nat, cc < 91 → (Char.ofNat cc).toNat = cc := by
  decide

theorem charOfNat_ne_A : ∀ cc : Nat, cc < 91 → 66 ≤ cc → Char.ofNat cc ≠ 'A' := by
  decide

theorem data_get_cell_id (c : Char) (r : Nat) :
    (get_cell_id c r).data = c :: (pad2 r).data := by
  simp [get_cell_id, Char.toString]

theorem pad2_inj_small :
    ∀ r : Nat, r < 51 → ∀ s : Nat, s < 51 → pad2 r = pad2 s → r = s := by
  decide

theorem pad2_digits :
    ∀ r : Nat, r < 100 → (pad2 r).data = [Nat.digitChar (r / 10), Nat.digitChar (r % 10)] := by
  decide

theorem cellEntry_fst (colCode row : Nat) :
    (cellEntry colCode row).1 = get_cell_id (Char.ofNat colCode) row := by
  by_cases h : Char.ofNat colCode = 'A' <;> simp [cellEntry, h]

/-! ### The generated keys are pairwise distinct -/

theorem get_cell_id_inj {cc cc' r r' : Nat}
    (hcc : cc < 91) (hcc' : cc' < 91) (hr : r < 51) (hr' : r' < 51)
    (h : get_cell_id (Char.ofNat cc) r = get_cell_id (Char.ofNat cc') r') :
    cc = cc' ∧ r = r' := by
  have hd := congrArg String.data h
  rw [data_get_cell_id, data_get_cell_id] at hd
  obtain ⟨hc, hp⟩ := List.cons.inj hd
  refine ⟨?_, pad2_inj_small r hr r' hr' (String.ext hp)⟩
  have := congrArg Char.toNat hc
  rwa [toNat_charOfNat_small cc hcc, toNat_charOfNat_small cc' hcc'] at this

theorem megatable_keys_eq :
    megatable_pairs.map Prod.fst =
      (List.range' 65 26).flatMap fun cc =>
        (List.range' 1 50).map fun r => get_cell_id (Char.ofNat cc) r := by
  rw [megatable_pairs, List.map_flatMap]
  refine List.flatMap_congr fun cc _ => ?_
  rw [List.map_map]
  exact List.map_congr_left fun r _ => cellEntry_fst cc r

theorem megatable_keys_nodup : (megatable_pairs.map Prod.fst).Nodup := by
  rw [megatable_keys_eq]
  rw [List.nodup_flatMap]
  constructor
  · intro cc hcc
    rw [List.mem_range'_1] at hcc
    refine (List.nodup_range' 1 50).map_on ?_
    intro r hr s hs h
    rw [List.mem_range'_1] at hr hs
    exact (get_cell_id_inj (by omega) (by omega) (by omega) (by omega) h).2
  · refine (List.nodup_range' 65 26).imp_of_mem ?_
    intro cc cc' hcc hcc' hne
    rw [List.mem_range'_1] at hcc hcc'
    rw [Function.onFun, List.disjoint_left]
    intro k hk hk'
    rw [List.mem_map] at hk hk'
    obtain ⟨r, hr, rfl⟩ := hk
    obtain ⟨r', hr', h⟩ := hk'
    rw [List.mem_range'_1] at hr hr'
    exact hne (get_cell_id_inj (by omega) (by omega) (by omega) (by omega) h.symm).1

/-! ### The dict built by the loops is the plain list of loop entries -/

theorem foldl_dictInsert_of_nodup :
    ∀ (ps d : List (String × String)), ((d ++ ps).map Prod.fst).Nodup →
      ps.foldl (fun acc p => dictInsert acc p.1 p.2) d = d ++ ps := by
  intro ps
  induction ps with
  | nil => intro d _; simp
  | cons p ps ih =>
    intro d hnd
    have hfresh : p.1 ∉ d.map Prod.fst := by
      intro hmem
      have : (d.map Prod.fst).Disjoint ((p :: ps).map Prod.fst) := by
        rw [List.map_append] at hnd
        exact (List.nodup_append.mp hnd).2.2
      exact this hmem (by simp)
    have hstep : dictInsert d p.1 p.2 = d ++ [p] := by
      rw [dictInsert, if_neg hfresh]
    rw [List.foldl_cons, hstep, ih (d ++ [p]) (by simpa using hnd)]
    simp

theorem inputs_eq_pairs : gen_megatable_inputs = megatable_pairs := by
  rw [gen_megatable_inputs,
    foldl_dictInsert_of_nodup megatable_pairs [] (by simpa using megatable_keys_nodup)]
  simp

/-! ### Looking a key up in a dict with distinct keys -/

theorem lookup_eq_of_mem :
    ∀ (ps : List (String × String)) (k v : String), (ps.map Prod.fst).Nodup →
      (k, v) ∈ ps → ps.lookup k = some v := by
  intro ps
  induction ps with
  | nil => intro k v _ hmem; cases hmem
  | cons p ps ih =>
    intro k v hnd hmem
    rcases List.mem_cons.mp hmem with heq | htail
    · obtain rfl := heq.symm
      simp [List.lookup]
    · have hk : k ≠ p.1 := by
        rintro rfl
        exact (List.nodup_cons.mp (by simpa using hnd)).1
          (List.mem_map_of_mem Prod.fst htail)
      have hbeq : (k == p.1) = false := beq_eq_false_iff_ne.mpr hk
      rw [List.lookup, hbeq]
      exact ih k v (List.nodup_cons.mp (by simpa using hnd)).2 htail

/-! ### The entry stored for each cell -/

theorem cellEntry_literal (row : Nat) :
    cellEntry 65 row = (get_cell_id 'A' row, toString row) := by
  have h : Char.ofNat 65 = 'A' := by decide
  simp [cellEntry, h]

theorem cellEntry_formula {colCode : Nat} (row : Nat) (h1 : 66 ≤ colCode)
    (h2 : colCode ≤ 90) :
    cellEntry colCode row =
      (get_cell_id (Char.ofNat colCode) row,
       "= " ++ get_cell_id (Char.ofNat (colCode - 1)) row ++ " * 1.25") := by
  have h : Char.ofNat colCode ≠ 'A' := charOfNat_ne_A colCode (by omega) h1
  simp [cellEntry, h]

theorem cellEntry_mem {colCode row : Nat} (h1 : 65 ≤ colCode) (h2 : colCode ≤ 90)
    (h3 : 1 ≤ row) (h4 : row ≤ 50) : cellEntry colCode row ∈ megatable_pairs := by
  rw [megatable_pairs]
  refine List.mem_flatMap.mpr ⟨colCode, ?_, ?_⟩
  · rw [List.mem_range'_1]; omega
  · exact List.mem_map_of_mem _ (by rw [List.mem_range'_1]; omega)

theorem lookup_formula_code {cc r : Nat} (h1 : 66 ≤ cc) (h2 : cc ≤ 90)
    (h3 : 1 ≤ r) (h4 : r ≤ 50) :
    gen_megatable_inputs.lookup (get_cell_id (Char.ofNat cc) r)
      = some ("= " ++ get_cell_id (Char.ofNat (cc - 1)) r ++ " * 1.25") := by
  rw [inputs_eq_pairs]
  have hmem := @cellEntry_mem cc r (by omega) h2 h3 h4
  rw [cellEntry_formula r h1 h2] at hmem
  exact lookup_eq_of_mem _ _ _ megatable_keys_nodup hmem

theorem lookup_literal_row {r : Nat} (h3 : 1 ≤ r) (h4 : r ≤ 50) :
    gen_megatable_inputs.lookup (get_cell_id 'A' r) = some (toString r) := by
  rw [inputs_eq_pairs]
  have hmem := @cellEntry_mem 65 r (le_refl 65) (by omega) h3 h4
  rw [cellEntry_literal r] at hmem
  exact lookup_eq_of_mem _ _ _ megatable_keys_nodup hmem

theorem pairs_length : megatable_pairs.length = 1300 := by
  rw [megatable_pairs, List.length_flatMap]
  simp only [Function.comp_def, List.length_map, List.length_range']
  rw [List.map_const', List.sum_replicate, List.length_range']
  norm_num

/-! ### The decimal rendering of a number of at least two digits -/

theorem toDigitsCore_length_lower (b : Nat) :
    ∀ (fuel n : Nat) (l : List Char), 0 < fuel →
      l.length + 1 ≤ (Nat.toDigitsCore b fuel n l).length := by
  intro fuel
  induction fuel with
  | zero => intro n l h; omega
  | succ fuel ih =>
    intro n l _
    simp only [Nat.toDigitsCore]
    split
    · simp
    · cases fuel with
      | zero =>
        simp [Nat.toDigitsCore]
      | succ fuel' =>
        have h := ih (n / b) (Nat.digitChar (n % b) :: l) (Nat.succ_pos fuel')
        simp only [List.length_cons] at h
        omega

theorem nat_repr_length_ge_two {n : Nat} (h : 10 ≤ n) : 2 ≤ (Nat.repr n).length := by
  have hne : ¬ (n / 10 = 0) := by
    have : 1 ≤ n / 10 := (Nat.one_le_div_iff (by norm_num)).mpr h
    omega
  rw [Nat.repr, Nat.toDigits, List.length_asString]
  simp only [Nat.toDigitsCore, hne, if_false]
  have hlow := toDigitsCore_length_lower 10 n (n / 10) [Nat.digitChar (n % 10)] (by omega)
  simpa using hlow

theorem pad2_eq_of_ten_le {n : Nat} (h : 10 ≤ n) : pad2 n = toString n := by
  rw [pad2]
  have : ¬ ((toString n).length < 2) := by
    have := nat_repr_length_ge_two h
    simp only [toString]
    omega
  simp [this]

/-! ### Further helper facts -/

theorem charOfNat_in_AZ :
    ∀ cc : Nat, cc < 91 → 65 ≤ cc → 'A' ≤ Char.ofNat cc ∧ Char.ofNat cc ≤ 'Z' := by
  decide

set_option maxRecDepth 20000 in
theorem iterate_refTarget :
    ∀ cc : Nat, cc < 91 → 65 ≤ cc → refTarget^[cc - 65] (Char.ofNat cc) = 'A' := by
  decide

theorem toNat_ge_of_B_le {c : Char} (h : 'B' ≤ c) : 66 ≤ c.toNat := by
  have e : 'B'.toNat = 66 := by decide
  have := char_le_iff_toNat.mp h
  omega

theorem toNat_le_of_le_Z {c : Char} (h : c ≤ 'Z') : c.toNat ≤ 90 := by
  have e : 'Z'.toNat = 90 := by decide
  have := char_le_iff_toNat.mp h
  omega

/-! ### The claims -/

/-- C1: for every column `c` in `'B'..'Z'` and row `r` in `1..50`, the
generated `inputs` mapping sends the cell id of `(c, r)` to exactly
`"= "` followed by the id of the column immediately before `c` at the
same row `r`, followed by `" * 1.25"`. -/
theorem claim_C1 (c : Char) (r : Nat) (hc1 : 'B' ≤ c) (hc2 : c ≤ 'Z')
    (hr1 : 1 ≤ r) (hr2 : r ≤ 50) :
    gen_megatable_inputs.lookup (get_cell_id c r)
      = some ("= " ++ get_cell_id (Char.ofNat (c.toNat - 1)) r ++ " * 1.25") := by
  have h1 := toNat_ge_of_B_le hc1
  have h2 := toNat_le_of_le_Z hc2
  have h := @lookup_formula_code c.toNat r h1 h2 hr1 hr2
  rwa [Char.ofNat_toNat] at h

theorem claim_C1_witness :
    'B' ≤ 'C' ∧ 'C' ≤ 'Z' ∧ 1 ≤ 7 ∧ 7 ≤ 50 ∧
    gen_megatable_inputs.lookup (get_cell_id 'C' 7)
      = some ("= " ++ get_cell_id (Char.ofNat ('C'.toNat - 1)) 7 ++ " * 1.25") :=
  ⟨by decide, by decide, by decide, by decide,
    claim_C1 'C' 7 (by decide) (by decide) (by decide) (by decide)⟩

/-- C2: for every row `r` in `1..50`, the generated `inputs` mapping sends
the column-A cell id (`"A"` followed by `r` zero-padded to two digits) to
the plain decimal string of `r` with no padding. -/
theorem claim_C2 (r : Nat) (hr1 : 1 ≤ r) (hr2 : r ≤ 50) :
    gen_megatable_inputs.lookup ("A" ++ pad2 r) = some (toString r) ∧
    (r < 10 → (toString r).length = 1) := by
  constructor
  · have e : ("A" : String) ++ pad2 r = get_cell_id 'A' r := rfl
    rw [e]
    exact lookup_literal_row hr1 hr2
  · intro h
    have : ∀ r : Nat, r < 10 → (toString r).length = 1 := by decide
    exact this r h

theorem claim_C2_witness :
    1 ≤ 1 ∧ 1 ≤ 50 ∧
    (gen_megatable_inputs.lookup ("A" ++ pad2 1) = some (toString 1) ∧
      (1 < 10 → (toString 1).length = 1)) :=
  ⟨by decide, by decide, claim_C2 1 (by decide) (by decide)⟩

/-- C3: the returned document has exactly one top-level key, `"inputs"`,
and the mapping under it has exactly 1300 entries with pairwise distinct
keys. -/
theorem claim_C3 :
    gen_megatable.map Prod.fst = ["inputs"] ∧
    gen_megatable_inputs.length = 1300 ∧
    (gen_megatable_inputs.map Prod.fst).Nodup := by
  refine ⟨rfl, ?_, ?_⟩
  · rw [inputs_eq_pairs]; exact pairs_length
  · rw [inputs_eq_pairs]; exact megatable_keys_nodup

/-- C4: for every column letter `c` in `'A'..'Z'` and row `r` in `1..50`,
`get_cell_id c r` is the single column letter followed by exactly two
zero-padded decimal digits of the row number, hence has length 3. -/
theorem claim_C4 (c : Char) (r : Nat) (_hc1 : 'A' ≤ c) (_hc2 : c ≤ 'Z')
    (hr1 : 1 ≤ r) (hr2 : r ≤ 50) :
    (get_cell_id c r).data = [c, Nat.digitChar (r / 10), Nat.digitChar (r % 10)] ∧
    (get_cell_id c r).length = 3 := by
  have hd : (pad2 r).data = [Nat.digitChar (r / 10), Nat.digitChar (r % 10)] :=
    pad2_digits r (by omega)
  constructor
  · rw [data_get_cell_id, hd]
  · show (get_cell_id c r).data.length = 3
    rw [data_get_cell_id, hd]
    rfl

theorem claim_C4_witness :
    'A' ≤ 'C' ∧ 'C' ≤ 'Z' ∧ 1 ≤ 7 ∧ 7 ≤ 50 ∧
    ((get_cell_id 'C' 7).data = ['C', Nat.digitChar (7 / 10), Nat.digitChar (7 % 10)] ∧
      (get_cell_id 'C' 7).length = 3) :=
  ⟨by decide, by decide, by decide, by decide,
    claim_C4 'C' 7 (by decide) (by decide) (by decide) (by decide)⟩

/-- C5: the insertion order of the keys of the generated `inputs` mapping
is column-major then row-major: exactly the sequence obtained by
iterating columns `'A'..'Z'` outermost and rows `1..50` innermost. -/
theorem claim_C5 : gen_megatable_inputs.map Prod.fst = spec_key_order := by
  rw [inputs_eq_pairs, megatable_keys_eq, spec_key_order]
  rw [List.range'_eq_map_range, List.flatMap_map]

/-- C6: concrete boundary and example values of the generated fixture:
`get_cell_id 'B' 7 = "B07"`, `inputs["A07"] = "7"`,
`inputs["B07"] = "= A07 * 1.25"`, `inputs["C07"] = "= B07 * 1.25"`,
row 1 gives the `"01"` suffix with `inputs["A01"] = "1"`, row 50 gives
the `"50"` suffix, and every computed identifier uses a column letter
between `'A'` and `'Z'`. -/
theorem claim_C6 :
    get_cell_id 'B' 7 = "B07" ∧
    gen_megatable_inputs.lookup "A07" = some "7" ∧
    gen_megatable_inputs.lookup "B07" = some "= A07 * 1.25" ∧
    gen_megatable_inputs.lookup "C07" = some "= B07 * 1.25" ∧
    get_cell_id 'A' 1 = "A01" ∧
    gen_megatable_inputs.lookup "A01" = some "1" ∧
    pad2 50 = "50" ∧
    (∀ k ∈ gen_megatable_inputs.map Prod.fst,
      ∃ ch, k.data.head? = some ch ∧ 'A' ≤ ch ∧ ch ≤ 'Z') := by
  refine ⟨by decide, ?_, ?_, ?_, by decide, ?_, by decide, ?_⟩
  · have e : ("A07" : String) = get_cell_id 'A' 7 := by decide
    rw [e]
    exact lookup_literal_row (by norm_num) (by norm_num)
  · have e : ("B07" : String) = get_cell_id (Char.ofNat 66) 7 := by decide
    rw [e]
    have h := @lookup_formula_code 66 7
      (by norm_num) (by norm_num) (by norm_num) (by norm_num)
    exact h.trans (by decide)
  · have e : ("C07" : String) = get_cell_id (Char.ofNat 67) 7 := by decide
    rw [e]
    have h := @lookup_formula_code 67 7
      (by norm_num) (by norm_num) (by norm_num) (by norm_num)
    exact h.trans (by decide)
  · have e : ("A01" : String) = get_cell_id 'A' 1 := by decide
    rw [e]
    exact lookup_literal_row (by norm_num) (by norm_num)
  · intro k hk
    rw [inputs_eq_pairs, megatable_keys_eq] at hk
    obtain ⟨cc, hcc, hk⟩ := List.mem_flatMap.mp hk
    rw [List.mem_range'_1] at hcc
    obtain ⟨r, _, rfl⟩ := List.mem_map.mp hk
    refine ⟨Char.ofNat cc, ?_, (charOfNat_in_AZ cc (by omega) (by omega)).1,
      (charOfNat_in_AZ cc (by omega) (by omega)).2⟩
    rw [data_get_cell_id]
    rfl

/-- C7: the generator is deterministic: it takes no input and consults no
external state, so any two invocations return identical documents — the
same keys, the same values, and the same order. -/
theorem claim_C7 (d1 d2 : List (String × List (String × String)))
    (h1 : d1 = gen_megatable) (h2 : d2 = gen_megatable) :
    d1 = d2 ∧ d1.map Prod.fst = d2.map Prod.fst := by
  subst h1; subst h2; exact ⟨rfl, rfl⟩

theorem claim_C7_witness :
    gen_megatable = gen_megatable ∧
    gen_megatable.map Prod.fst = gen_megatable.map Prod.fst :=
  claim_C7 gen_megatable gen_megatable rfl rfl

/-- C8: `gen_megatable` is a total, terminating computation: its two
nested bounded loops run 26 and 50 iterations, so the inner body runs
exactly 26 × 50 = 1300 times, and a document is always returned. -/
theorem claim_C8 :
    (List.range' 65 26).length = 26 ∧ (List.range' 1 50).length = 50 ∧
    megatable_pairs.length = 26 * 50 ∧
    ∃ d, gen_megatable = [("inputs", d)] := by
  refine ⟨by simp, by simp, ?_, ⟨gen_megatable_inputs, rfl⟩⟩
  rw [pairs_length]

/-- C9: every formula cell references an identifier that is itself a key
of the mapping; the reference goes to a strictly smaller column in the
same row, iterating the reference step reaches column `'A'` in finitely
many steps, and the column-A cell of the same row is the literal row
number. -/
theorem claim_C9 (c : Char) (r : Nat) (hc1 : 'B' ≤ c) (hc2 : c ≤ 'Z')
    (hr1 : 1 ≤ r) (hr2 : r ≤ 50) :
    gen_megatable_inputs.lookup (get_cell_id c r)
      = some ("= " ++ get_cell_id (refTarget c) r ++ " * 1.25") ∧
    get_cell_id (refTarget c) r ∈ gen_megatable_inputs.map Prod.fst ∧
    (refTarget c).toNat < c.toNat ∧
    refTarget^[c.toNat - 65] c = 'A' ∧
    gen_megatable_inputs.lookup (get_cell_id 'A' r) = some (toString r) := by
  have h1 := toNat_ge_of_B_le hc1
  have h2 := toNat_le_of_le_Z hc2
  refine ⟨?_, ?_, ?_, ?_, lookup_literal_row hr1 hr2⟩
  · have h := @lookup_formula_code c.toNat r h1 h2 hr1 hr2
    rw [Char.ofNat_toNat] at h
    exact h
  · rw [inputs_eq_pairs, megatable_keys_eq]
    refine List.mem_flatMap.mpr ⟨c.toNat - 1, ?_, ?_⟩
    · rw [List.mem_range'_1]; omega
    · exact List.mem_map_of_mem _ (by rw [List.mem_range'_1]; omega)
  · rw [refTarget, toNat_charOfNat_small (c.toNat - 1) (by omega)]
    omega
  · have h := iterate_refTarget c.toNat (by omega) (by omega)
    rwa [Char.ofNat_toNat] at h

theorem claim_C9_witness :
    'B' ≤ 'D' ∧ 'D' ≤ 'Z' ∧ 1 ≤ 3 ∧ 3 ≤ 50 ∧
    (gen_megatable_inputs.lookup (get_cell_id 'D' 3)
        = some ("= " ++ get_cell_id (refTarget 'D') 3 ++ " * 1.25") ∧
      get_cell_id (refTarget 'D') 3 ∈ gen_megatable_inputs.map Prod.fst ∧
      (refTarget 'D').toNat < 'D'.toNat ∧
      refTarget^['D'.toNat - 65] 'D' = 'A' ∧
      gen_megatable_inputs.lookup (get_cell_id 'A' 3) = some (toString 3)) :=
  ⟨by decide, by decide, by decide, by decide,
    claim_C9 'D' 3 (by decide) (by decide) (by decide) (by decide)⟩

/-- C10: the zero-padding in `get_cell_id` is a minimum width, not a
fixed width: any row of three or more decimal digits is rendered
untruncated after the column letter, so the two-digit shape only holds
for rows `1..99`; rows `1..9` are padded with one zero and rows `10..99`
are left unchanged. -/
theorem claim_C10 (c : Char) (r : Nat) :
    (100 ≤ r → get_cell_id c r = c.toString ++ toString r) ∧
    (1 ≤ r → r ≤ 9 → get_cell_id c r = c.toString ++ ("0" ++ toString r)) ∧
    (10 ≤ r → r ≤ 99 → get_cell_id c r = c.toString ++ toString r) := by
  refine ⟨fun h => ?_, fun h1 h2 => ?_, fun h1 h2 => ?_⟩
  · rw [get_cell_id, pad2_eq_of_ten_le (by omega)]
  · rw [get_cell_id]
    have hp : ∀ n : Nat, n < 10 → pad2 n = "0" ++ toString n := by decide
    rw [hp r (by omega)]
  · rw [get_cell_id, pad2_eq_of_ten_le h1]

theorem claim_C10_witness : 100 ≤ 123 ∧ get_cell_id 'A' 123 = "A123" :=
  ⟨by norm_num, ((claim_C10 'A' 123).1 (by norm_num)).trans (by decide)⟩
